import Mathlib

/-!
Verification of the document operation service (`backend/pdf_service.py`).

The service is embedded shallowly:
* a `Doc` is an ordered list of opaque page identifiers (`Nat`);
* the filesystem is a partial map from path strings to documents, and every
  operation that writes files is modelled by explicit state passing, so that
  partially-completed operations leave their writes visible;
* Python exceptions are modelled by `Except` / an explicit error component;
* byte sizes observed through `os.path.getsize` are opaque inputs to the model
  (the serialization performed by the PDF library is a black box).

Python string primitives used by `_parse_page_range` (`str.replace`,
`str.split`, `int`) are modelled over `List Char`.
-/

deriving instance DecidableEq for Except

/-- Value of a decimal digit character. -/
def digitVal (c : Char) : Nat := c.toNat - '0'.toNat

/-- Fuel-driven digit extraction; any fuel above the number itself is enough,
and structural recursion on the fuel keeps the function kernel-reducible. -/
def natDigitsGo : Nat → Nat → List Char
  | 0, _ => []
  | fuel + 1, n =>
    if n < 10 then [Nat.digitChar n]
    else natDigitsGo fuel (n / 10) ++ [Nat.digitChar (n % 10)]

/-- Decimal digit list of a natural number, most significant first.  This is the
character sequence produced by Python's `str(n)` / an f-string `{n}` for a
non-negative integer: no sign, no leading zeros (and `0` renders as `"0"`). -/
def natDigits (n : Nat) : List Char := natDigitsGo (n + 1) n

/-- Decimal rendering of a natural number, as Python's `str` of a non-negative
`int` renders it. -/
def natStr (n : Nat) : String := ⟨natDigits n⟩

/-- Split a character list at every occurrence of `sep`, keeping empty pieces.
This is Python's `str.split(sep)` for a one-character separator: `"a,b"` gives
`["a","b"]`, `""` gives `[""]`, `"a,,b"` gives `["a","","b"]`. -/
def splitChar (sep : Char) : List Char → List (List Char)
  | [] => [[]]
  | c :: cs =>
    if c = sep then [] :: splitChar sep cs
    else
      match splitChar sep cs with
      | [] => [[c]]
      | t :: ts => (c :: t) :: ts

/-- Accumulate the value of a decimal digit string. -/
def digitsVal (cs : List Char) : Nat := cs.foldl (fun a c => 10 * a + digitVal c) 0

/-- Python's `int(s)` on the strings reachable in `_parse_page_range`: the
tokens are whitespace-stripped, and any `'-'` is consumed by the dashed-pair
branch before `int` is called, so the conversions here only ever see unsigned
decimal literals.  `int` succeeds on a non-empty all-digit string and raises
`ValueError` otherwise; the model returns `none` for the failure. -/
def pyInt? (cs : List Char) : Option Nat :=
  if !cs.isEmpty && cs.all (·.isDigit) then some (digitsVal cs) else none

/-- Errors raised while parsing a page-range expression.  All of them are
Python `ValueError`s, i.e. the spec's `ValidationError` kind:
* `invalidRange part total` — the explicit raise for a dashed pair failing
  `start < 1 or end > total_pages or start > end` (pdf_service.py line 148);
* `invalidPage page total` — the explicit raise for a single page failing
  `page < 1 or page > total_pages` (line 156);
* `intLiteral lit` — `int()` raised on a non-numeric literal (lines 145, 153);
* `unpackMismatch n` — `start, end = part.split('-')` unpacked `n ≠ 2`
  values (line 144). -/
inductive ParseErr where
  | invalidRange (part : String) (total : Nat)
  | invalidPage (page : Nat) (total : Nat)
  | intLiteral (lit : String)
  | unpackMismatch (n : Nat)
  deriving DecidableEq, Repr

/-- Message text attached to each parse error, mirroring the Python messages.
CPython's `int()` message additionally wraps the literal in quotes and its
unpack message says how many values were expected; that punctuation is elided
here, which only ever removes text from the message. -/
def errMessage : ParseErr → String
  | .invalidRange part total =>
      "Invalid range: " ++ part ++ " (PDF has " ++ natStr total ++ " pages)"
  | .invalidPage page total =>
      "Invalid page: " ++ natStr page ++ " (PDF has " ++ natStr total ++ " pages)"
  | .intLiteral lit => "invalid literal for int with base 10: " ++ lit
  | .unpackMismatch n =>
      if n < 2 then "not enough values to unpack" else "too many values to unpack"

/-- Total page count carried by (and rendered into the message of) an error,
if any. -/
def errTotal : ParseErr → Option Nat
  | .invalidRange _ total => some total
  | .invalidPage _ total => some total
  | .intLiteral _ => none
  | .unpackMismatch _ => none

/-- Whether the error is one of the two explicit bounds-check raises of
`_parse_page_range` (as opposed to an error raised inside `int()` or tuple
unpacking). -/
def isBoundsErr : ParseErr → Bool
  | .invalidRange _ _ => true
  | .invalidPage _ _ => true
  | .intLiteral _ => false
  | .unpackMismatch _ => false

/-- Parse one comma-separated token of a page-range expression against the
document's page count (the body of the `for part in parts` loop,
pdf_service.py lines 141-158).  A token containing `'-'` is split and read as
an inclusive dashed pair, expanding to `range(start, end + 1)`; otherwise the
token is a single page number. -/
def parseToken (t : List Char) (total : Nat) : Except ParseErr (List Nat) :=
  if '-' ∈ t then
    match splitChar '-' t with
    | [s, e] =>
      match pyInt? s with
      | none => .error (.intLiteral ⟨s⟩)
      | some start =>
        match pyInt? e with
        | none => .error (.intLiteral ⟨e⟩)
        | some stop =>
          if start < 1 ∨ stop > total ∨ start > stop then
            .error (.invalidRange ⟨t⟩ total)
          else
            .ok (List.range' start (stop + 1 - start))
    | parts => .error (.unpackMismatch parts.length)
  else
    match pyInt? t with
    | none => .error (.intLiteral ⟨t⟩)
    | some page =>
      if page < 1 ∨ page > total then .error (.invalidPage page total)
      else .ok [page]

/-- Tokenization performed by `_parse_page_range` before the loop:
`page_range.replace(' ', '').split(',')` (line 139). -/
def tokens (expr : String) : List (List Char) :=
  splitChar ',' (expr.data.filter (· ≠ ' '))

/-- Process the token list in order, concatenating the expansions; the first
failing token aborts the whole expression (the loop builds `pages` by
`extend`/`append`). -/
def parseTokens (total : Nat) : List (List Char) → Except ParseErr (List Nat)
  | [] => .ok []
  | t :: ts =>
    match parseToken t total with
    | .error e => .error e
    | .ok ps =>
      match parseTokens total ts with
      | .error e => .error e
      | .ok rest => .ok (ps ++ rest)

/-- Shallow embedding of `PdfService._parse_page_range` (pdf_service.py lines
124-160). -/
def _parse_page_range (expr : String) (total : Nat) : Except ParseErr (List Nat) :=
  parseTokens total (tokens expr)

/-- Parse a list of range expressions in order against one page count,
stopping at the first failure.  `split_pdf` performs exactly these parses,
interleaved with its writes. -/
def parseRanges : List String → Nat → Except ParseErr (List (List Nat))
  | [], _ => .ok []
  | r :: rs, total =>
    match _parse_page_range r total with
    | .error e => .error e
    | .ok ps =>
      match parseRanges rs total with
      | .error e => .error e
      | .ok rest => .ok (ps :: rest)

/-- A document is an ordered list of opaque page identifiers. -/
abbrev Doc := List Nat

/-- The filesystem, as the operations observe it: a partial map from path to
document content. -/
abbrev FS := String → Option Doc

/-- Write (create or overwrite) one file. -/
def FS.write (fs : FS) (path : String) (d : Doc) : FS :=
  fun q => if q = path then some d else fs q

/-- Errors surfaced by the service operations. -/
inductive SvcErr where
  | fileNotFound (path : String)
  | validation (e : ParseErr)
  | zeroDivisionError
  deriving DecidableEq, Repr

/-- POSIX `os.path.basename`: the part of the path after the last `'/'`. -/
def basename (s : String) : String :=
  ⟨(splitChar '/' s.data).getLastD []⟩

/-- Root part of POSIX `os.path.splitext` on a basename (no separators):
cut at the last `'.'`, unless every character before that dot is itself a
dot (so `".bashrc"` keeps its dot). -/
def splitextRoot (s : String) : String :=
  let cs := s.data
  let dotIdxs := (List.range cs.length).filter (fun i => cs.getD i ' ' = '.')
  match dotIdxs.getLast? with
  | none => s
  | some d => if (cs.take d).all (· = '.') then s else ⟨cs.take d⟩

/-- The `base_name` computed by `split_pdf` (line 94):
`os.path.splitext(os.path.basename(input_file))[0]`. -/
def base_name (input_file : String) : String :=
  splitextRoot (basename input_file)

/-- Output path of the `idx`-th split part (line 108):
`os.path.join(output_dir, f"{base_name}_part{idx}.pdf")`, with `os.path.join`
taken for a directory path without a trailing separator. -/
def partPath (output_dir base : String) (idx : Nat) : String :=
  output_dir ++ "/" ++ base ++ "_part" ++ natStr idx ++ ".pdf"

/-- Shallow embedding of `PdfService.merge_pdfs` (pdf_service.py lines
20-60).  The existence loop raises `FileNotFoundError` at the first missing
input; otherwise every input's pages are appended in order and the
concatenation is written to `output_file`. -/
def merge_pdfs (fs : FS) (input_files : List String) (output_file : String) :
    FS × Except SvcErr String :=
  match input_files.find? (fun p => (fs p).isNone) with
  | some p => (fs, .error (.fileNotFound p))
  | none =>
    let docs := input_files.map (fun p => (fs p).getD [])
    (fs.write output_file docs.flatten, .ok output_file)

/-- Pages of one split part: `reader.pages[page_num - 1]` for each listed page
number (line 105).  `_parse_page_range` guarantees `1 ≤ p ≤ reader.length`,
so the default of `getD` is never consulted. -/
def splitPart (reader : Doc) (pages : List Nat) : Doc :=
  pages.map (fun p => reader.getD (p - 1) 0)

/-- The `for idx, page_range in enumerate(ranges, 1)` loop of `split_pdf`
(lines 97-115): parse the range, build the part, write it, then continue.  A
parse failure aborts the loop, leaving the files already written in place. -/
def splitGo (reader : Doc) (base output_dir : String) :
    FS → Nat → List String → FS × Except SvcErr (List String)
  | fs, _, [] => (fs, .ok [])
  | fs, idx, r :: rs =>
    match _parse_page_range r reader.length with
    | .error e => (fs, .error (.validation e))
    | .ok pages =>
      match splitGo reader base output_dir
          (fs.write (partPath output_dir base idx) (splitPart reader pages)) (idx + 1) rs with
      | (fs', .ok outs) => (fs', .ok (partPath output_dir base idx :: outs))
      | (fs', .error e) => (fs', .error e)

/-- Shallow embedding of `PdfService.split_pdf` (pdf_service.py lines 62-122).
`os.makedirs(output_dir, exist_ok=True)` has no observable effect in this
file model. -/
def split_pdf (fs : FS) (input_file : String) (ranges : List String) (output_dir : String) :
    FS × Except SvcErr (List String) :=
  match fs input_file with
  | none => (fs, .error (.fileNotFound input_file))
  | some reader => splitGo reader (base_name input_file) output_dir fs 1 ranges

/-- Writes performed by a successful prefix of the split loop: part `idx + k`
receives the expansion of the `k`-th parsed range. -/
def writeParts (reader : Doc) (base output_dir : String) :
    FS → Nat → List (List Nat) → FS
  | fs, _, [] => fs
  | fs, idx, ps :: rest =>
    writeParts reader base output_dir
      (fs.write (partPath output_dir base idx) (splitPart reader ps)) (idx + 1) rest

/-- Size-delta percentage computed by `compress_pdf` (line 200):
`((original_size - compressed_size) / original_size) * 100`.  Python's `/`
raises `ZeroDivisionError` when `original_size` is zero — there is no guard in
the source — and computes a float otherwise; the value is modelled exactly
over `ℚ`. -/
def compressReduction (original_size compressed_size : Nat) : Except SvcErr ℚ :=
  if original_size = 0 then .error .zeroDivisionError
  else .ok (((original_size : ℚ) - compressed_size) / original_size * 100)

/-- Shallow embedding of `PdfService.compress_pdf` (pdf_service.py lines
162-209) after the existence check: every page is copied in order into the
output document (first component, written before the size computation), and
then the reduction percentage is computed from the two byte sizes observed by
`os.path.getsize`, which are opaque inputs of the model. -/
def compress_pdf (reader : Doc) (original_size compressed_size : Nat) :
    Doc × Except SvcErr ℚ :=
  (reader, compressReduction original_size compressed_size)

/-- Pixel contents of an image, as a free algebra over the black-box image
codec operations used by `image_to_pdf`. -/
inductive PixelData where
  | raw (id : Nat)
  | lastSplitChannel (src : PixelData)
  | pastedOnWhite (src : PixelData) (mask : Option PixelData)
  | converted (src : PixelData)

/-- A decoded raster image: a PIL mode string together with opaque pixel
contents. -/
structure PILImage where
  mode : String
  data : PixelData

instance : Inhabited PILImage := ⟨⟨"RGB", .raw 0⟩⟩

/-- Color-mode normalization of one image (pdf_service.py lines 239-245):
`RGBA`/`LA`/`P` images are pasted onto an opaque white background, using the
image's last split channel as mask for `RGBA`/`LA` and no mask for `P`;
any other non-`RGB` mode is converted directly. -/
def normalizeImg (img : PILImage) : PILImage :=
  if img.mode = "RGBA" ∨ img.mode = "LA" ∨ img.mode = "P" then
    { mode := "RGB"
      data := .pastedOnWhite img.data
        (if img.mode = "RGBA" ∨ img.mode = "LA" then some (.lastSplitChannel img.data) else none) }
  else if img.mode ≠ "RGB" then { mode := "RGB", data := .converted img.data }
  else img

/-- Shallow embedding of `PdfService.image_to_pdf` (pdf_service.py lines
211-259).  The first component is the content written to `output_file`
(`none` when nothing is written).  After the per-file existence check, all
images are loaded and normalized; the save happens only under `if images:`
(line 251), and the function returns `output_file` in every non-raising
path. -/
def image_to_pdf (imgFs : String → Option PILImage) (image_files : List String)
    (output_file : String) : Option (List PILImage) × Except SvcErr String :=
  match image_files.find? (fun p => (imgFs p).isNone) with
  | some p => (none, .error (.fileNotFound p))
  | none =>
    let images := image_files.map (fun p => normalizeImg ((imgFs p).getD default))
    if images.isEmpty then (none, .ok output_file)
    else (some images, .ok output_file)

/-- Entry emitted for one kept page (line 291):
`f"=== Page {page_num} ===\n{text}\n"`. -/
def pageEntry (n : Nat) (text : String) : String :=
  "=== Page " ++ natStr n ++ " ===\n" ++ text ++ "\n"

/-- Whether Python's `text.strip()` is falsy: every character is whitespace
(in particular when the text is empty). -/
def allWhitespace (text : String) : Bool :=
  text.data.all (·.isWhitespace)

/-- The `for page_num, page in enumerate(reader.pages, 1)` loop of
`pdf_to_text` (lines 288-292): pages whose extracted text strips to nothing
are skipped, the rest contribute one entry carrying their true 1-based page
number. -/
def collectPages : Nat → List String → List String
  | _, [] => []
  | n, t :: ts =>
    if allWhitespace t then collectPages (n + 1) ts
    else pageEntry n t :: collectPages (n + 1) ts

/-- Python's `sep.join(xs)`. -/
def pyJoin (sep : String) : List String → String
  | [] => ""
  | [x] => x
  | x :: xs => x ++ sep ++ pyJoin sep xs

/-- Shallow embedding of `PdfService.pdf_to_text` (pdf_service.py lines
261-301) after the existence check, as a function of the per-page extracted
texts: collect the entries and join them with `'\n'.join` (line 294). -/
def pdf_to_text (texts : List String) : String :=
  pyJoin "\n" (collectPages 1 texts)

/-- Grammar of one page-range token as the spec states it (§4.2): either a
single integer `N` with `1 ≤ N ≤ total`, expanding to `[N]`, or a dashed pair
`A-B` of integers with `A ≤ B`, both in `[1, total]`, expanding to the
inclusive sequence `A, A+1, …, B`.  An "integer" here is an unsigned decimal
literal, i.e. a string Python's `int` accepts. -/
def tokSpec (total : Nat) (t : List Char) (exp : List Nat) : Prop :=
  (∃ n, pyInt? t = some n ∧ 1 ≤ n ∧ n ≤ total ∧ exp = [n]) ∨
  (∃ a b as bs, t = as ++ '-' :: bs ∧ pyInt? as = some a ∧ pyInt? bs = some b ∧
    1 ≤ a ∧ a ≤ b ∧ b ≤ total ∧ exp = List.range' a (b + 1 - a))

/-- Whether a token is one of the forms the claim calls out as invalid: a
dashed pair `A-B` of integers with `A > B`, or a token resolving to a page
number outside `[1, total]` (a single page out of bounds, or a dashed pair
with an endpoint out of bounds). -/
def violatesBounds (t : List Char) (total : Nat) : Bool :=
  if '-' ∈ t then
    match splitChar '-' t with
    | [s, e] =>
      match pyInt? s, pyInt? e with
      | some a, some b => decide (a > b) || decide (a < 1) || decide (b > total)
      | _, _ => false
    | _ => false
  else
    match pyInt? t with
    | some n => decide (n < 1) || decide (n > total)
    | none => false

/-- Kept pages of a document per the spec's wording (§4.5): each page paired
with its true 1-based position (skipped pages still advance the position),
keeping exactly the pages whose extracted text is not all-whitespace. -/
def keptPages (texts : List String) : List (Nat × String) :=
  (texts.enumFrom 1).filterMap (fun p => if allWhitespace p.2 then none else some p)

/-- Rendering of one kept entry per the spec's wording: the page-number
header line `=== Page {n} ===`, then the page's text. -/
def specEntry (p : Nat × String) : String :=
  "=== Page " ++ natStr p.1 ++ " ===\n" ++ p.2

/-- Offset-generalized kept-page list, tracking the loop counter of
`collectPages`. -/
def keptFrom (n : Nat) : List String → List (Nat × String)
  | [] => []
  | t :: ts =>
    if allWhitespace t then keptFrom (n + 1) ts else (n, t) :: keptFrom (n + 1) ts

/-! ### Decimal rendering -/

theorem digitsVal_append_singleton (xs : List Char) (c : Char) :
    digitsVal (xs ++ [c]) = 10 * digitsVal xs + digitVal c := by
  simp [digitsVal, List.foldl_append]

theorem digitVal_digitChar (m : Nat) (h : m < 10) : digitVal (Nat.digitChar m) = m := by
  revert h; revert m; decide

theorem digitsVal_natDigitsGo : ∀ fuel n, n < fuel → digitsVal (natDigitsGo fuel n) = n
  | 0, n, h => absurd h (Nat.not_lt_zero n)
  | fuel + 1, n, h => by
    rw [natDigitsGo]
    by_cases h10 : n < 10
    · rw [if_pos h10]
      simp [digitsVal, digitVal_digitChar n h10]
    · rw [if_neg h10, digitsVal_append_singleton,
        digitsVal_natDigitsGo fuel (n / 10) (by omega),
        digitVal_digitChar _ (Nat.mod_lt _ (by decide))]
      omega

theorem digitsVal_natDigits (n : Nat) : digitsVal (natDigits n) = n :=
  digitsVal_natDigitsGo (n + 1) n (Nat.lt_succ_self n)

theorem natDigits_inj {m n : Nat} (h : natDigits m = natDigits n) : m = n := by
  have := digitsVal_natDigits m
  rw [h, digitsVal_natDigits] at this
  omega

theorem natStr_inj {m n : Nat} (h : natStr m = natStr n) : m = n :=
  natDigits_inj (congrArg String.data h)

/-! ### Splitting on a separator character -/

theorem splitChar_ne_nil (sep : Char) (cs : List Char) : splitChar sep cs ≠ [] := by
  cases cs with
  | nil => simp [splitChar]
  | cons c cs =>
    by_cases h : c = sep <;> simp only [splitChar, h, if_true, if_false, reduceIte]
    · simp
    · cases hs : splitChar sep cs <;> simp

theorem splitChar_no_sep {sep : Char} : ∀ {cs : List Char}, sep ∉ cs →
    splitChar sep cs = [cs]
  | [], _ => rfl
  | c :: cs, h => by
    have hc : ¬c = sep := fun e => h (e ▸ List.mem_cons_self c cs)
    have := @splitChar_no_sep sep cs (fun m => h (List.mem_cons_of_mem c m))
    simp [splitChar, hc, this]

theorem splitChar_sep_append {sep : Char} : ∀ {as : List Char} (bs : List Char),
    sep ∉ as → splitChar sep (as ++ sep :: bs) = as :: splitChar sep bs
  | [], bs, _ => by simp [splitChar]
  | a :: as, bs, h => by
    have ha : ¬a = sep := fun e => h (e ▸ List.mem_cons_self a as)
    have := @splitChar_sep_append sep as bs (fun m => h (List.mem_cons_of_mem a m))
    simp [splitChar, ha, this]

/-! ### Integer literals -/

theorem pyInt?_all_digits {cs : List Char} {n : Nat} (h : pyInt? cs = some n) :
    ∀ c ∈ cs, c.isDigit := by
  intro c hc
  by_cases hd : !cs.isEmpty && cs.all (·.isDigit)
  · exact List.all_eq_true.mp (Bool.and_elim_right hd) c hc
  · simp [pyInt?, hd] at h

theorem pyInt?_no_dash {cs : List Char} {n : Nat} (h : pyInt? cs = some n) : '-' ∉ cs := by
  intro hmem
  have := pyInt?_all_digits h '-' hmem
  simp [Char.isDigit] at this

/-! ### Single-token parsing -/

theorem parseToken_single {t : List Char} {n total : Nat}
    (hn : pyInt? t = some n) (h1 : 1 ≤ n) (h2 : n ≤ total) :
    parseToken t total = .ok [n] := by
  have hmem : '-' ∉ t := pyInt?_no_dash hn
  rw [parseToken, if_neg hmem, hn]
  exact if_neg (by omega)

theorem parseToken_pair {as bs : List Char} {a b total : Nat}
    (ha : pyInt? as = some a) (hb : pyInt? bs = some b)
    (h1 : 1 ≤ a) (hab : a ≤ b) (h2 : b ≤ total) :
    parseToken (as ++ '-' :: bs) total = .ok (List.range' a (b + 1 - a)) := by
  have hmem : '-' ∈ as ++ '-' :: bs := List.mem_append_right _ (List.mem_cons_self _ _)
  have hsp : splitChar '-' (as ++ '-' :: bs) = [as, bs] := by
    rw [splitChar_sep_append bs (pyInt?_no_dash ha), splitChar_no_sep (pyInt?_no_dash hb)]
  rw [parseToken, if_pos hmem, hsp]
  simp only [ha, hb]
  exact if_neg (by omega)

theorem parseToken_tokSpec {total : Nat} {t : List Char} {exp : List Nat}
    (h : tokSpec total t exp) : parseToken t total = .ok exp := by
  rcases h with ⟨n, hn, h1, h2, rfl⟩ | ⟨a, b, as, bs, rfl, ha, hb, h1, hab, h2, rfl⟩
  · exact parseToken_single hn h1 h2
  · exact parseToken_pair ha hb h1 hab h2

/-- C1: for every page-range expression conforming to the grammar — after
whitespace stripping, a comma-separated list of tokens, each a single
in-bounds integer or an in-bounds dashed pair `A-B` with `A ≤ B` —
`_parse_page_range` succeeds and returns exactly the concatenation, in token
order, of each token's expansion (singleton, or inclusive `A..B`). -/
theorem parseTokens_forall₂ {total : Nat} {ts : List (List Char)} {exps : List (List Nat)}
    (h : List.Forall₂ (tokSpec total) ts exps) : parseTokens total ts = .ok exps.flatten := by
  induction h with
  | nil => rfl
  | cons h₁ h₂ ih =>
    simp only [parseTokens, parseToken_tokSpec h₁, ih, List.flatten_cons]

theorem parse_page_range_grammar (expr : String) (total : Nat) (exps : List (List Nat))
    (h : List.Forall₂ (tokSpec total) (tokens expr) exps) :
    _parse_page_range expr total = .ok exps.flatten := by
  rw [_parse_page_range]
  exact parseTokens_forall₂ h

/-- Witness: the expression `"1-3,5,7-9"` conforms to the grammar against a
10-page document and parses to `[1, 2, 3, 5, 7, 8, 9]`. -/
theorem parse_page_range_grammar_witness :
    List.Forall₂ (tokSpec 10) (tokens "1-3,5,7-9") [[1, 2, 3], [5], [7, 8, 9]] ∧
    _parse_page_range "1-3,5,7-9" 10 = .ok [1, 2, 3, 5, 7, 8, 9] := by
  have htok : tokens "1-3,5,7-9" = [['1', '-', '3'], ['5'], ['7', '-', '9']] := by decide
  have hF : List.Forall₂ (tokSpec 10) (tokens "1-3,5,7-9") [[1, 2, 3], [5], [7, 8, 9]] := by
    rw [htok]
    refine .cons (Or.inr ⟨1, 3, ['1'], ['3'], rfl, by decide, by decide,
      by decide, by decide, by decide, by decide⟩) ?_
    refine .cons (Or.inl ⟨5, by decide, by decide, by decide, rfl⟩) ?_
    exact .cons (Or.inr ⟨7, 9, ['7'], ['9'], rfl, by decide, by decide,
      by decide, by decide, by decide, by decide⟩) .nil
  exact ⟨hF, parse_page_range_grammar _ _ _ hF⟩

theorem parseToken_violates {t : List Char} {total : Nat}
    (h : violatesBounds t total = true) : ∃ e, parseToken t total = .error e := by
  by_cases hm : '-' ∈ t
  · rw [violatesBounds, if_pos hm] at h
    rw [parseToken, if_pos hm]
    cases hsp : splitChar '-' t with
    | nil => exact ⟨_, rfl⟩
    | cons s rest =>
      cases rest with
      | nil => exact ⟨_, rfl⟩
      | cons e₀ rest₂ =>
        cases rest₂ with
        | cons _ _ => exact ⟨_, rfl⟩
        | nil =>
          rw [hsp] at h
          cases hs : pyInt? s with
          | none => exact ⟨ParseErr.intLiteral ⟨s⟩, by simp only [hs]⟩
          | some a =>
            cases he : pyInt? e₀ with
            | none => exact ⟨ParseErr.intLiteral ⟨e₀⟩, by simp only [hs, he]⟩
            | some b =>
              simp only [hs, he, Bool.or_eq_true, decide_eq_true_eq] at h
              refine ⟨ParseErr.invalidRange ⟨t⟩ total, ?_⟩
              simp only [hs, he]
              exact if_pos (by omega)
  · rw [violatesBounds, if_neg hm] at h
    rw [parseToken, if_neg hm]
    cases hn : pyInt? t with
    | none => exact ⟨ParseErr.intLiteral ⟨t⟩, rfl⟩
    | some n =>
      rw [hn] at h
      simp only [Bool.or_eq_true, decide_eq_true_eq] at h
      exact ⟨_, if_pos (by omega)⟩

theorem parseTokens_violates {total : Nat} : ∀ {ts : List (List Char)},
    (∃ t ∈ ts, violatesBounds t total = true) → ∃ e, parseTokens total ts = .error e
  | [], ⟨t, ht, _⟩ => absurd ht (List.not_mem_nil t)
  | t₀ :: ts, ⟨t, ht, hv⟩ => by
    rw [parseTokens]
    cases hp : parseToken t₀ total with
    | error e => exact ⟨e, rfl⟩
    | ok ps =>
      rcases List.mem_cons.mp ht with rfl | hmem
      · rcases parseToken_violates hv with ⟨e, he⟩
        rw [hp] at he
        cases he
      · rcases parseTokens_violates ⟨t, hmem, hv⟩ with ⟨e, he⟩
        rw [he]
        exact ⟨e, rfl⟩

/-- C6: a range expression containing a dashed pair `A-B` with `A > B`, or
any token resolving to a page number outside `[1, total]`, fails to parse (the
loop raises before returning, so no page sequence is produced).  Every error
of `ParseErr` models a Python `ValueError`, the spec's `ValidationError`. -/
theorem parse_out_of_bounds_fails (expr : String) (total : Nat)
    (h : ∃ t ∈ tokens expr, violatesBounds t total = true) :
    ∃ e, _parse_page_range expr total = .error e :=
  parseTokens_violates h

/-- Witness: `"2-1"` (an inverted dashed pair) fails against a 5-page
document. -/
theorem parse_out_of_bounds_fails_witness :
    (∃ t ∈ tokens "2-1", violatesBounds t 5 = true) ∧
    ∃ e, _parse_page_range "2-1" 5 = .error e :=
  ⟨by decide, parse_out_of_bounds_fails "2-1" 5 (by decide)⟩

theorem parseToken_error_inv {t : List Char} {total : Nat} {e : ParseErr}
    (h : parseToken t total = .error e) :
    (∀ p t', e = .invalidRange p t' → p = ⟨t⟩ ∧ t' = total) ∧
    (∀ n t', e = .invalidPage n t' → pyInt? t = some n ∧ t' = total) := by
  rw [parseToken] at h
  by_cases hm : '-' ∈ t
  · rw [if_pos hm] at h
    cases hsp : splitChar '-' t with
    | nil =>
      rw [hsp] at h
      cases h
      exact ⟨(fun p t' hpe => nomatch hpe), (fun n t' hpe => nomatch hpe)⟩
    | cons s rest =>
      cases rest with
      | nil =>
        rw [hsp] at h
        cases h
        exact ⟨(fun p t' hpe => nomatch hpe), (fun n t' hpe => nomatch hpe)⟩
      | cons e₀ rest₂ =>
        cases rest₂ with
        | cons _ _ =>
          rw [hsp] at h
          cases h
          exact ⟨(fun p t' hpe => nomatch hpe), (fun n t' hpe => nomatch hpe)⟩
        | nil =>
          rw [hsp] at h
          cases hs : pyInt? s with
          | none =>
            simp only [hs] at h
            cases h
            exact ⟨(fun p t' hpe => nomatch hpe), (fun n t' hpe => nomatch hpe)⟩
          | some a =>
            cases he : pyInt? e₀ with
            | none =>
              simp only [hs, he] at h
              cases h
              exact ⟨(fun p t' hpe => nomatch hpe), (fun n t' hpe => nomatch hpe)⟩
            | some b =>
              simp only [hs, he] at h
              by_cases hb : a < 1 ∨ b > total ∨ a > b
              · rw [if_pos hb] at h
                cases h
                exact ⟨(fun p t' hpe => by cases hpe; exact ⟨rfl, rfl⟩),
                       (fun n t' hpe => nomatch hpe)⟩
              · rw [if_neg hb] at h
                cases h
  · rw [if_neg hm] at h
    cases hn : pyInt? t with
    | none =>
      simp only [hn] at h
      cases h
      exact ⟨(fun p t' hpe => nomatch hpe), (fun n t' hpe => nomatch hpe)⟩
    | some page =>
      simp only [hn] at h
      by_cases hb : page < 1 ∨ page > total
      · rw [if_pos hb] at h
        cases h
        exact ⟨(fun p t' hpe => nomatch hpe),
               (fun n t' hpe => by cases hpe; exact ⟨rfl, rfl⟩)⟩
      · rw [if_neg hb] at h
        cases h

theorem parseTokens_error_mem {total : Nat} {e : ParseErr} : ∀ {ts : List (List Char)},
    parseTokens total ts = .error e → ∃ t ∈ ts, parseToken t total = .error e
  | [], h => by cases h
  | t₀ :: ts, h => by
    rw [parseTokens] at h
    cases hp : parseToken t₀ total with
    | error e₀ =>
      rw [hp] at h
      cases h
      exact ⟨t₀, List.mem_cons_self _ _, hp⟩
    | ok ps =>
      rw [hp] at h
      cases hq : parseTokens total ts with
      | error e₁ =>
        rw [hq] at h
        cases h
        rcases parseTokens_error_mem hq with ⟨t, ht, hte⟩
        exact ⟨t, List.mem_cons_of_mem _ ht, hte⟩
      | ok rest =>
        rw [hq] at h
        cases h

theorem parseToken_error_total {t : List Char} {total : Nat} {e : ParseErr}
    (h : parseToken t total = .error e) (hb : isBoundsErr e = true) :
    errTotal e = some total := by
  rw [parseToken] at h
  split at h
  · split at h
    · split at h
      · cases h; simp [isBoundsErr] at hb
      · split at h
        · cases h; simp [isBoundsErr] at hb
        · split at h
          · cases h; rfl
          · cases h
    · cases h; simp [isBoundsErr] at hb
  · split at h
    · cases h; simp [isBoundsErr] at hb
    · split at h
      · cases h; rfl
      · cases h

theorem parseTokens_error_total {total : Nat} {e : ParseErr} : ∀ {ts : List (List Char)},
    parseTokens total ts = .error e → isBoundsErr e = true → errTotal e = some total
  | [], h, _ => by cases h
  | t₀ :: ts, h, hb => by
    rw [parseTokens] at h
    cases hp : parseToken t₀ total with
    | error e₀ =>
      rw [hp] at h
      cases h
      exact parseToken_error_total hp hb
    | ok ps =>
      rw [hp] at h
      cases hq : parseTokens total ts with
      | error e₁ =>
        rw [hq] at h
        cases h
        exact parseTokens_error_total hq hb
      | ok rest => rw [hq] at h; cases h

/-- C7 amended: when parsing fails with one of the explicit bounds checks,
the raised `ValidationError` names the offending token and the
total page count of the document — for a dashed range the offending token
itself is one of the tokens of the expression and appears verbatim in the
message; for a single page the message renders the resolved page number of
the offending token — but the message does not include the whole failing
expression when it has more than one token (see the counterexample).  When
parsing fails on a malformed token (a bad integer literal, or a token
splitting into other than two dashed pieces), the raised error carries no
page count; it names at most the offending literal. -/
theorem parse_error_total_pages (expr : String) (total : Nat) (e : ParseErr)
    (h : _parse_page_range expr total = .error e) :
    (isBoundsErr e = true →
      errTotal e = some total ∧ (natStr total).data <:+: (errMessage e).data) ∧
    (∀ p t', e = .invalidRange p t' →
      p.data ∈ tokens expr ∧ p.data <:+: (errMessage e).data) ∧
    (∀ n t', e = .invalidPage n t' →
      (∃ tk ∈ tokens expr, pyInt? tk = some n) ∧
        (natStr n).data <:+: (errMessage e).data) ∧
    (isBoundsErr e = false → errTotal e = none) := by
  rcases parseTokens_error_mem h with ⟨t, ht, hte⟩
  have hinv := parseToken_error_inv hte
  refine ⟨?_, ?_, ?_, ?_⟩
  · intro hb
    have htt := parseTokens_error_total h hb
    refine ⟨htt, ?_⟩
    cases e with
    | invalidRange p t' =>
      have he : t' = total := by simpa [errTotal] using htt
      rw [he]
      have hd : (errMessage (ParseErr.invalidRange p total)).data =
          ("Invalid range: " ++ p ++ " (PDF has ").data ++
            (natStr total).data ++ (" pages)").data := by
        simp [errMessage, String.data_append, List.append_assoc]
      rw [hd]
      exact List.infix_append _ _ _
    | invalidPage n t' =>
      have he : t' = total := by simpa [errTotal] using htt
      rw [he]
      have hd : (errMessage (ParseErr.invalidPage n total)).data =
          ("Invalid page: " ++ natStr n ++ " (PDF has ").data ++
            (natStr total).data ++ (" pages)").data := by
        simp [errMessage, String.data_append, List.append_assoc]
      rw [hd]
      exact List.infix_append _ _ _
    | intLiteral lit => simp [isBoundsErr] at hb
    | unpackMismatch n => simp [isBoundsErr] at hb
  · intro p t' hpe
    rcases hinv.1 p t' hpe with ⟨hp, _⟩
    constructor
    · rw [hp]
      exact ht
    · rw [hpe]
      have hd : (errMessage (ParseErr.invalidRange p t')).data =
          ("Invalid range: ").data ++ p.data ++
            (" (PDF has " ++ natStr t' ++ " pages)").data := by
        simp [errMessage, String.data_append, List.append_assoc]
      rw [hd]
      exact List.infix_append _ _ _
  · intro n t' hpe
    rcases hinv.2 n t' hpe with ⟨hn, _⟩
    refine ⟨⟨t, ht, hn⟩, ?_⟩
    rw [hpe]
    have hd : (errMessage (ParseErr.invalidPage n t')).data =
        ("Invalid page: ").data ++ (natStr n).data ++
          (" (PDF has " ++ natStr t' ++ " pages)").data := by
      simp [errMessage, String.data_append, List.append_assoc]
    rw [hd]
    exact List.infix_append _ _ _
  · intro hb
    cases e <;> first | rfl | simp [isBoundsErr] at hb

/-- Witness: `"2-1"` against a 5-page document fails with the invalid-range
error, which names the offending token `2-1` (a token of the expression,
rendered in the message) and the total page count 5 (also rendered). -/
theorem parse_error_total_pages_witness :
    _parse_page_range "2-1" 5 = .error (.invalidRange "2-1" 5) ∧
    errTotal (ParseErr.invalidRange "2-1" 5) = some 5 ∧
    (natStr 5).data <:+: (errMessage (ParseErr.invalidRange "2-1" 5)).data ∧
    ("2-1" : String).data ∈ tokens "2-1" ∧
    ("2-1" : String).data <:+: (errMessage (ParseErr.invalidRange "2-1" 5)).data := by
  have h := parse_error_total_pages "2-1" 5 (.invalidRange "2-1" 5) (by decide)
  exact ⟨by decide, (h.1 rfl).1, (h.1 rfl).2,
    (h.2.1 "2-1" 5 rfl).1, (h.2.1 "2-1" 5 rfl).2⟩

/-- C7 counterexample: two failing expressions refute the claim as stated.
The malformed expression `"x"` against a 7-page document fails inside
`int()`; that error carries no page count and its message does not mention
the total page count anywhere.  The expression `"1-2,9"` against a 3-page
document fails with the bounds `ValidationError`, whose message names the
resolved page number of the offending token and the page count, but not the
offending expression `1-2,9` itself. -/
theorem parse_error_message_counterexample :
    (_parse_page_range "x" 7 = .error (.intLiteral "x") ∧
      errTotal (ParseErr.intLiteral "x") = none ∧
      ¬ (natStr 7).data <:+: (errMessage (ParseErr.intLiteral "x")).data) ∧
    (_parse_page_range "1-2,9" 3 = .error (.invalidPage 9 3) ∧
      ¬ ("1-2,9" : String).data <:+: (errMessage (ParseErr.invalidPage 9 3)).data) :=
  ⟨⟨by decide, rfl, by decide⟩, by decide, by decide⟩

/-! ### Split: part naming and written files -/

theorem partPath_inj {dir base : String} {i j : Nat}
    (h : partPath dir base i = partPath dir base j) : i = j := by
  have hd := congrArg String.data h
  simp only [partPath, String.data_append, List.append_assoc] at hd
  have h1 := List.append_cancel_left hd
  have h2 := List.append_cancel_left h1
  have h3 := List.append_cancel_left h2
  have h4 := List.append_cancel_left h3
  exact natDigits_inj (List.append_cancel_right h4)

theorem writeParts_other (reader : Doc) (base dir : String) :
    ∀ (parsed : List (List Nat)) (fs : FS) (idx : Nat) (q : String),
      (∀ j, idx ≤ j → j < idx + parsed.length → q ≠ partPath dir base j) →
      writeParts reader base dir fs idx parsed q = fs q
  | [], _, _, _, _ => rfl
  | ps :: rest, fs, idx, q, h => by
    rw [writeParts,
      writeParts_other reader base dir rest _ (idx + 1) q
        (fun j h1 h2 => h j (by omega) (by simp at h2 ⊢; omega))]
    simp only [FS.write]
    rw [if_neg (h idx (Nat.le_refl idx) (by simp))]

theorem writeParts_lookup (reader : Doc) (base dir : String) :
    ∀ (parsed : List (List Nat)) (fs : FS) (idx k : Nat) (hk : k < parsed.length),
      writeParts reader base dir fs idx parsed (partPath dir base (idx + k)) =
        some (splitPart reader (parsed.get ⟨k, hk⟩))
  | [], _, _, k, hk => absurd hk (by simp)
  | ps :: rest, fs, idx, 0, _ => by
    rw [Nat.add_zero, writeParts,
      writeParts_other reader base dir rest _ (idx + 1) _
        (fun j h1 _ hq => by have := partPath_inj hq; omega)]
    simp [FS.write]
  | ps :: rest, fs, idx, k + 1, hk => by
    rw [writeParts, show idx + (k + 1) = (idx + 1) + k from by omega,
      writeParts_lookup reader base dir rest _ (idx + 1) k
        (Nat.lt_of_succ_lt_succ (by simpa using hk))]
    rfl

theorem parseRanges_length : ∀ {rs : List String} {total : Nat} {parsed : List (List Nat)},
    parseRanges rs total = .ok parsed → parsed.length = rs.length
  | [], total, parsed, h => by rw [parseRanges] at h; cases h; rfl
  | r :: rs, total, parsed, h => by
    rw [parseRanges] at h
    cases hp : _parse_page_range r total with
    | error e => rw [hp] at h; cases h
    | ok ps =>
      rw [hp] at h
      cases hq : parseRanges rs total with
      | error e => rw [hq] at h; cases h
      | ok rest =>
        rw [hq] at h
        cases h
        simp [parseRanges_length hq]

theorem splitGo_ok (reader : Doc) (base dir : String) :
    ∀ (rs : List String) (parsed : List (List Nat)) (fs : FS) (idx : Nat),
      parseRanges rs reader.length = .ok parsed →
      splitGo reader base dir fs idx rs =
        (writeParts reader base dir fs idx parsed,
         .ok ((List.range' idx rs.length).map (partPath dir base)))
  | [], parsed, fs, idx, h => by
    rw [parseRanges] at h
    cases h
    rfl
  | r :: rs, parsed, fs, idx, h => by
    rw [parseRanges] at h
    cases hp : _parse_page_range r reader.length with
    | error e => rw [hp] at h; cases h
    | ok ps =>
      rw [hp] at h
      cases hq : parseRanges rs reader.length with
      | error e => rw [hq] at h; cases h
      | ok rest =>
        rw [hq] at h
        cases h
        simp only [splitGo, hp]
        rw [splitGo_ok reader base dir rs rest _ (idx + 1) hq]
        exact rfl

theorem splitGo_error_after (reader : Doc) (base dir : String) :
    ∀ (pre : List String) (parsed : List (List Nat)) (bad : String) (rest : List String)
      (fs : FS) (idx : Nat) (e : ParseErr),
      parseRanges pre reader.length = .ok parsed →
      _parse_page_range bad reader.length = .error e →
      splitGo reader base dir fs idx (pre ++ bad :: rest) =
        (writeParts reader base dir fs idx parsed, .error (.validation e))
  | [], parsed, bad, rest, fs, idx, e, hpre, hbad => by
    rw [parseRanges] at hpre
    cases hpre
    rw [List.nil_append, splitGo, hbad]
    rfl
  | r :: pre, parsed, bad, rest, fs, idx, e, hpre, hbad => by
    rw [parseRanges] at hpre
    cases hp : _parse_page_range r reader.length with
    | error e₀ => rw [hp] at hpre; cases hpre
    | ok ps =>
      rw [hp] at hpre
      cases hq : parseRanges pre reader.length with
      | error e₀ => rw [hq] at hpre; cases hpre
      | ok rest₀ =>
        rw [hq] at hpre
        cases hpre
        rw [List.cons_append]
        simp only [splitGo, hp]
        rw [splitGo_error_after reader base dir pre rest₀ bad rest _ (idx + 1) e hq hbad]
        exact rfl

/-- C4: for an existing input document and range expressions that all parse,
`split_pdf` returns, in range order, the paths
`output_dir/basename_part{idx}.pdf` for `idx = 1 .. ranges.length`, and the
file written for the `k`-th range (0-based `k`) holds exactly the pages that
range lists, in listed order with repeats preserved. -/
theorem split_pdf_parts (fs : FS) (input output_dir : String) (D : Doc)
    (ranges : List String) (parsed : List (List Nat))
    (hIn : fs input = some D)
    (hParse : parseRanges ranges D.length = .ok parsed) :
    (split_pdf fs input ranges output_dir).2 =
      .ok ((List.range' 1 ranges.length).map (partPath output_dir (base_name input))) ∧
    ∀ k (hk : k < parsed.length),
      (split_pdf fs input ranges output_dir).1
          (partPath output_dir (base_name input) (k + 1)) =
        some (splitPart D (parsed.get ⟨k, hk⟩)) := by
  have hsplit : split_pdf fs input ranges output_dir =
      (writeParts D (base_name input) output_dir fs 1 parsed,
       .ok ((List.range' 1 ranges.length).map (partPath output_dir (base_name input)))) := by
    rw [split_pdf, hIn]
    exact splitGo_ok D (base_name input) output_dir ranges parsed fs 1 hParse
  rw [hsplit]
  refine ⟨rfl, fun k hk => ?_⟩
  have h := writeParts_lookup D (base_name input) output_dir parsed fs 1 k hk
  rw [Nat.add_comm 1 k] at h
  exact h

/-- Witness: splitting a 3-page document `[5, 6, 7]` at `"doc.pdf"` with the
duplicate-page range `"2,2"` yields the single path `out/doc_part1.pdf`
holding the 2-page document `[6, 6]` — both pages copies of source page 2. -/
theorem split_pdf_parts_witness :
    parseRanges ["2,2"] 3 = .ok [[2, 2]] ∧
    (split_pdf (fun p => if p = "doc.pdf" then some [5, 6, 7] else none)
        "doc.pdf" ["2,2"] "out").2 = .ok ["out/doc_part1.pdf"] ∧
    (split_pdf (fun p => if p = "doc.pdf" then some [5, 6, 7] else none)
        "doc.pdf" ["2,2"] "out").1 "out/doc_part1.pdf" = some [6, 6] := by
  have h := split_pdf_parts (fun p => if p = "doc.pdf" then some [5, 6, 7] else none)
    "doc.pdf" "out" [5, 6, 7] ["2,2"] [[2, 2]] (by decide) (by decide)
  refine ⟨by decide, h.1.trans (by decide), ?_⟩
  have h2 := h.2 0 (by decide)
  have hpath : partPath "out" (base_name "doc.pdf") (0 + 1) = "out/doc_part1.pdf" := by decide
  rw [hpath] at h2
  exact h2.trans (by decide)

/-! ### Merge -/

theorem find?_isNone_eq_none {fs : FS} {l : List String}
    (hex : ∀ p ∈ l, (fs p).isSome) : l.find? (fun p => (fs p).isNone) = none := by
  rw [List.find?_eq_none]
  intro x hx h
  have h2 := hex x hx
  rw [Option.isNone_iff_eq_none] at h
  rw [h] at h2
  cases h2

/-- C3 amended: for a non-empty list of existing input paths and an output
path that is not itself one of the inputs, `merge_pdfs` writes to the output
path the concatenation of the inputs' page sequences in the given order (so
the output page count is the sum of the input page counts) and mutates no
input file.  When the output path coincides with an input, that input is
overwritten by the merged result (see the counterexample). -/
theorem merge_pdfs_concat (fs : FS) (input_files : List String) (output_file : String)
    (hne : input_files ≠ [])
    (hex : ∀ p ∈ input_files, (fs p).isSome)
    (hout : output_file ∉ input_files) :
    (merge_pdfs fs input_files output_file).2 = .ok output_file ∧
    (merge_pdfs fs input_files output_file).1 output_file =
      some (input_files.map (fun p => (fs p).getD [])).flatten ∧
    (input_files.map (fun p => (fs p).getD [])).flatten.length =
      (input_files.map (fun p => ((fs p).getD []).length)).sum ∧
    ∀ p ∈ input_files, (merge_pdfs fs input_files output_file).1 p = fs p := by
  have hm : merge_pdfs fs input_files output_file =
      (fs.write output_file (input_files.map (fun p => (fs p).getD [])).flatten,
       .ok output_file) := by
    rw [merge_pdfs, find?_isNone_eq_none hex]
  rw [hm]
  refine ⟨rfl, ?_, ?_, ?_⟩
  · simp [FS.write]
  · rw [List.length_flatten, List.map_map]
    rfl
  · intro p hp
    simp only [FS.write]
    rw [if_neg (show ¬(p = output_file) from fun hpe => hout (hpe ▸ hp))]

/-- Witness: merging the two existing one-page files `a ↦ [1]`, `b ↦ [2]`
into `m` yields the 2-page concatenation `[1, 2]` and leaves both inputs
untouched. -/
theorem merge_pdfs_concat_witness :
    ((fun q => if q = "a" then some [1] else if q = "b" then some [2] else none : FS) "a")
      = some [1] ∧
    (merge_pdfs (fun q => if q = "a" then some [1] else if q = "b" then some [2] else none)
      ["a", "b"] "m").2 = .ok "m" ∧
    (merge_pdfs (fun q => if q = "a" then some [1] else if q = "b" then some [2] else none)
      ["a", "b"] "m").1 "m" = some [1, 2] ∧
    (merge_pdfs (fun q => if q = "a" then some [1] else if q = "b" then some [2] else none)
      ["a", "b"] "m").1 "a" = some [1] := by
  have h := merge_pdfs_concat
    (fun q => if q = "a" then some [1] else if q = "b" then some [2] else none)
    ["a", "b"] "m" (by decide) (by decide) (by decide)
  exact ⟨by decide, h.1, (h.2.1).trans (by decide), (h.2.2.2 "a" (by decide)).trans (by decide)⟩

/-- C3 counterexample: all inputs of `merge ["a", "a"] "a"` exist, yet the
input file `a` is mutated — it held the 1-page document `[0]` before the call
and holds `[0, 0]` afterwards, because the output path is among the inputs. -/
theorem merge_pdfs_mutates_counterexample :
    (∀ p ∈ ["a", "a"],
      (((fun q => if q = "a" then some [0] else none) : FS) p).isSome) ∧
    ((fun q => if q = "a" then some [0] else none) : FS) "a" = some [0] ∧
    (merge_pdfs (fun q => if q = "a" then some [0] else none) ["a", "a"] "a").1 "a"
      = some [0, 0] ∧
    (merge_pdfs (fun q => if q = "a" then some [0] else none) ["a", "a"] "a").1 "a"
      ≠ ((fun q => if q = "a" then some [0] else none) : FS) "a" :=
  ⟨by decide, by decide, by decide, by decide⟩

/-! ### Split followed by merge -/

theorem getD_range' (l : Doc) :
    (List.range' 1 l.length).map (fun p => l.getD (p - 1) 0) = l := by
  apply List.ext_getElem
  · simp
  · intro k h1 h2
    simp only [List.getElem_map, List.getElem_range']
    rw [show 1 + 1 * k - 1 = k from by omega, List.getD_eq_getElem l 0 h2]

/-- C2: when the expansions of the range expressions, concatenated in order,
cover exactly the page positions `1 .. D.length`, splitting and then merging
all produced parts in order reconstructs a document with the same page count
and page order as the original. -/
theorem split_merge_roundtrip (fs : FS) (input output_dir merged : String) (D : Doc)
    (ranges : List String) (parsed : List (List Nat))
    (hIn : fs input = some D)
    (hParse : parseRanges ranges D.length = .ok parsed)
    (hCover : parsed.flatten = List.range' 1 D.length) :
    ∃ fs₁ outs,
      split_pdf fs input ranges output_dir = (fs₁, .ok outs) ∧
      (merge_pdfs fs₁ outs merged).2 = .ok merged ∧
      (merge_pdfs fs₁ outs merged).1 merged = some D := by
  have hlen : parsed.length = ranges.length := parseRanges_length hParse
  have hsplit : split_pdf fs input ranges output_dir =
      (writeParts D (base_name input) output_dir fs 1 parsed,
       .ok ((List.range' 1 ranges.length).map (partPath output_dir (base_name input)))) := by
    rw [split_pdf, hIn]
    exact splitGo_ok D (base_name input) output_dir ranges parsed fs 1 hParse
  have hlook : ∀ k (hk : k < parsed.length),
      writeParts D (base_name input) output_dir fs 1 parsed
          (partPath output_dir (base_name input) (1 + k)) =
        some (splitPart D (parsed.get ⟨k, hk⟩)) :=
    fun k hk => writeParts_lookup D (base_name input) output_dir parsed fs 1 k hk
  have hex : ∀ q ∈ (List.range' 1 ranges.length).map (partPath output_dir (base_name input)),
      (writeParts D (base_name input) output_dir fs 1 parsed q).isSome := by
    intro q hq
    rcases List.mem_map.mp hq with ⟨i, hi, rfl⟩
    rcases List.mem_range'.mp hi with ⟨k, hk, rfl⟩
    rw [Nat.one_mul, hlook k (by omega)]
    rfl
  have hdocs : ((List.range' 1 ranges.length).map (partPath output_dir (base_name input))).map
      (fun q => (writeParts D (base_name input) output_dir fs 1 parsed q).getD []) =
      parsed.map (splitPart D) := by
    apply List.ext_getElem
    · simp [hlen]
    · intro k h1 h2
      simp only [List.getElem_map, List.getElem_range']
      rw [Nat.one_mul, hlook k (by simpa using h2)]
      simp
  have hm : merge_pdfs (writeParts D (base_name input) output_dir fs 1 parsed)
      ((List.range' 1 ranges.length).map (partPath output_dir (base_name input))) merged =
      ((writeParts D (base_name input) output_dir fs 1 parsed).write merged
        (((List.range' 1 ranges.length).map (partPath output_dir (base_name input))).map
          (fun q => (writeParts D (base_name input) output_dir fs 1 parsed q).getD [])).flatten,
       .ok merged) := by
    rw [merge_pdfs, find?_isNone_eq_none hex]
  refine ⟨_, _, hsplit, ?_, ?_⟩
  · rw [hm]
  · rw [hm]
    simp only [FS.write, if_pos rfl]
    rw [hdocs,
      show parsed.map (splitPart D) = parsed.map (List.map (fun p => D.getD (p - 1) 0)) from rfl,
      ← List.map_flatten, hCover, getD_range']
    simp

/-- Witness: splitting the 4-page document `[10, 20, 30, 40]` with ranges
`["1-2", "3-4"]` and merging the two parts reconstructs the original. -/
theorem split_merge_roundtrip_witness :
    parseRanges ["1-2", "3-4"] 4 = .ok [[1, 2], [3, 4]] ∧
    ([[1, 2], [3, 4]] : List (List Nat)).flatten = List.range' 1 4 ∧
    ∃ fs₁ outs,
      split_pdf (fun p => if p = "in.pdf" then some [10, 20, 30, 40] else none)
          "in.pdf" ["1-2", "3-4"] "out" = (fs₁, .ok outs) ∧
      (merge_pdfs fs₁ outs "m.pdf").2 = .ok "m.pdf" ∧
      (merge_pdfs fs₁ outs "m.pdf").1 "m.pdf" = some [10, 20, 30, 40] := by
  refine ⟨by decide, by decide, ?_⟩
  exact split_merge_roundtrip
    (fun p => if p = "in.pdf" then some [10, 20, 30, 40] else none)
    "in.pdf" "out" "m.pdf" [10, 20, 30, 40] ["1-2", "3-4"] [[1, 2], [3, 4]]
    (by decide) (by decide) (by decide)

/-! ### Compress and image conversion -/

/-- C8 (code behavior at the failing input): with a zero-byte input
(`original_size = 0`), `compress_pdf` reaches Python's unguarded division and
fails with `ZeroDivisionError` — there is no explicit error branch in the
percentage computation; the generic handler merely logs and re-raises the
division fault. -/
theorem compress_zero_size_division_fault (reader : Doc) (compressed_size : Nat) :
    compress_pdf reader 0 compressed_size = (reader, .error .zeroDivisionError) := rfl

/-- C9 (code behavior at the failing input): with an empty image list,
`image_to_pdf` skips the save (`if images:` is false), writes nothing, and
still returns the intended output path as a success — a silently-empty
success instead of the propagated processing error the spec requires. -/
theorem image_to_pdf_empty_silent_success (imgFs : String → Option PILImage)
    (output_file : String) :
    image_to_pdf imgFs [] output_file = (none, .ok output_file) := rfl

/-! ### Text extraction -/

theorem pageEntry_specEntry (n : Nat) (t : String) :
    pageEntry n t = specEntry (n, t) ++ "\n" := by
  simp [pageEntry, specEntry, String.append_assoc]

theorem collectPages_keptFrom : ∀ (ts : List String) (n : Nat),
    collectPages n ts = (keptFrom n ts).map (fun p => specEntry p ++ "\n")
  | [], _ => rfl
  | t :: ts, n => by
    rw [collectPages, keptFrom]
    by_cases h : allWhitespace t
    · rw [if_pos h, if_pos h, collectPages_keptFrom ts (n + 1)]
    · rw [if_neg h, if_neg h, collectPages_keptFrom ts (n + 1), List.map_cons,
        pageEntry_specEntry]

theorem keptFrom_enumFrom : ∀ (ts : List String) (n : Nat),
    keptFrom n ts =
      (ts.enumFrom n).filterMap (fun p => if allWhitespace p.2 then none else some p)
  | [], _ => rfl
  | t :: ts, n => by
    by_cases h : allWhitespace t
    · simp [keptFrom, h, keptFrom_enumFrom ts (n + 1), List.enumFrom, List.filterMap_cons]
    · simp [keptFrom, h, keptFrom_enumFrom ts (n + 1), List.enumFrom, List.filterMap_cons]

theorem pyJoin_map_append : ∀ (xs : List String), xs ≠ [] → ∀ sep add : String,
    pyJoin sep (xs.map (fun x => x ++ add)) = pyJoin (add ++ sep) xs ++ add
  | [], h, _, _ => absurd rfl h
  | [_], _, _, _ => rfl
  | x :: y :: tl, _, sep, add => by
    have ih := pyJoin_map_append (y :: tl) (by simp) sep add
    show x ++ add ++ sep ++ pyJoin sep ((y :: tl).map (fun x => x ++ add)) =
      x ++ (add ++ sep) ++ pyJoin (add ++ sep) (y :: tl) ++ add
    rw [ih]
    simp [String.append_assoc]

/-- C5: `pdf_to_text` skips every all-whitespace page with no placeholder,
emits for each kept page the header `=== Page {n} ===` with the page's true
1-based position (not renumbered after skips), separates consecutive kept
entries by a single blank line (and ends with one trailing newline), and
returns the empty string when every page is empty or whitespace-only. -/
theorem pdf_to_text_spec (texts : List String) :
    pdf_to_text texts =
      if keptPages texts = [] then ""
      else pyJoin "\n\n" ((keptPages texts).map specEntry) ++ "\n" := by
  rw [pdf_to_text, collectPages_keptFrom texts 1,
    show keptFrom 1 texts = keptPages texts from keptFrom_enumFrom texts 1]
  by_cases h : keptPages texts = []
  · rw [h, if_pos rfl]
    rfl
  · rw [if_neg h,
      show (keptPages texts).map (fun p => specEntry p ++ "\n") =
        ((keptPages texts).map specEntry).map (fun x => x ++ "\n") from by
          rw [List.map_map]; rfl,
      pyJoin_map_append ((keptPages texts).map specEntry)
        (fun hm => h (List.map_eq_nil_iff.mp hm)) "\n" "\n",
      show ("\n" ++ "\n" : String) = "\n\n" from rfl]

/-- C10: `split_pdf` is not atomic across ranges — when every expression in
`pre` parses and the next expression `bad` fails validation, the call returns
that validation error, yet the part files for all of `pre` have already been
written into `output_dir` and remain visible in the resulting filesystem. -/
theorem split_pdf_partial_writes (fs : FS) (input output_dir : String) (D : Doc)
    (pre : List String) (bad : String) (rest : List String)
    (parsed : List (List Nat)) (e : ParseErr)
    (hIn : fs input = some D)
    (hPre : parseRanges pre D.length = .ok parsed)
    (hBad : _parse_page_range bad D.length = .error e) :
    (split_pdf fs input (pre ++ bad :: rest) output_dir).2 = .error (.validation e) ∧
    ∀ k (hk : k < parsed.length),
      (split_pdf fs input (pre ++ bad :: rest) output_dir).1
          (partPath output_dir (base_name input) (k + 1)) =
        some (splitPart D (parsed.get ⟨k, hk⟩)) := by
  have hsplit : split_pdf fs input (pre ++ bad :: rest) output_dir =
      (writeParts D (base_name input) output_dir fs 1 parsed, .error (.validation e)) := by
    rw [split_pdf, hIn]
    exact splitGo_error_after D (base_name input) output_dir pre parsed bad rest fs 1 e hPre hBad
  rw [hsplit]
  refine ⟨rfl, fun k hk => ?_⟩
  have h := writeParts_lookup D (base_name input) output_dir parsed fs 1 k hk
  rw [Nat.add_comm 1 k] at h
  exact h

/-- Witness: splitting `[5, 6, 7]` with ranges `["1-2", "9"]` fails on the
out-of-bounds second range, but `out/doc_part1.pdf` (pages `[5, 6]`) has
already been written. -/
theorem split_pdf_partial_writes_witness :
    parseRanges ["1-2"] 3 = .ok [[1, 2]] ∧
    _parse_page_range "9" 3 = .error (.invalidPage 9 3) ∧
    (split_pdf (fun p => if p = "doc.pdf" then some [5, 6, 7] else none)
        "doc.pdf" ["1-2", "9"] "out").2 = .error (.validation (.invalidPage 9 3)) ∧
    (split_pdf (fun p => if p = "doc.pdf" then some [5, 6, 7] else none)
        "doc.pdf" ["1-2", "9"] "out").1 "out/doc_part1.pdf" = some [5, 6] := by
  have h := split_pdf_partial_writes (fun p => if p = "doc.pdf" then some [5, 6, 7] else none)
    "doc.pdf" "out" [5, 6, 7] ["1-2"] "9" [] [[1, 2]] (.invalidPage 9 3)
    (by decide) (by decide) (by decide)
  refine ⟨by decide, by decide, h.1, ?_⟩
  have h2 := h.2 0 (by decide)
  have hpath : partPath "out" (base_name "doc.pdf") (0 + 1) = "out/doc_part1.pdf" := by decide
  rw [hpath] at h2
  exact h2.trans (by decide)
